import Mathlib

/-!
# Verification of the Data-cleaner transaction pipeline

Shallow embedding of the transaction-normalization and aggregation pipeline
of the Data-cleaner repository (src/dataclean.py, src/dataclean_v2.0.py,
src/datacleanup2.py), together with proofs settling the frozen claims about
the natural-language specification.

Modelling conventions:
* A pandas cell that may be missing (NaN) is `Option String`; Python's
  `str(...)` cast of a missing cell yields the literal string `"nan"`,
  modelled by `pyStrCell`.
* Numeric values are rationals (`ℚ`), modelling exact decimal parsing and
  exact accumulation; pandas' float64 rounding is not modelled.
* Parsed timestamps are `Option Int` (`none` = NaT, i.e. unparseable).
-/

namespace DataCleaner

/-- Python `str(cell)` on a pandas cell: a missing value (NaN) prints as the
literal string `"nan"`; a string cell is unchanged. -/
def pyStrCell : Option String → String
  | none => "nan"
  | some s => s

/-- ASCII lowering of one character, modelling Python `str.lower` on the
ASCII fragment exercised by the pipeline. -/
def lowChar (c : Char) : Char :=
  if 'A' ≤ c ∧ c ≤ 'Z' then Char.ofNat (c.toNat + 32) else c

/-- Lower-casing of a string (model of Python `str.lower()`). -/
def lowerStr (s : String) : String :=
  String.mk (s.data.map lowChar)

/-- `chPre needle hay`: `needle` is a prefix of `hay` (on character lists). -/
def chPre : List Char → List Char → Bool
  | [], _ => true
  | _ :: _, [] => false
  | a :: as, b :: bs => a == b && chPre as bs

/-- `chSub needle hay`: `needle` occurs as a contiguous substring of `hay`;
models Python's `needle in hay` on strings. -/
def chSub (needle : List Char) : List Char → Bool
  | [] => needle.isEmpty
  | b :: bs => chPre needle (b :: bs) || chSub needle bs

/-- The fixed fee-keyword set of the categorizer
(`['fee', 'gas', 'transaction cost']` in all three revisions). -/
def feeKeywords : List String := ["fee", "gas", "transaction cost"]

/-- `any(fee_keyword in e for fee_keyword in [...])` with `e` an already
lower-cased event label. -/
def hasFeeKeyword (e : String) : Bool :=
  feeKeywords.any (fun k => chSub k.data e.data)

/-- `categorize_transaction` as written in src/dataclean.py (lines 54-64) and
src/dataclean_v2.0.py (lines 87-96): the raw `Direction` cell is compared
with `==` against the exact lowercase literals (no `str()` cast, no
lowering), while the `Event Label` cell is cast with `str(...)` and
lower-cased before the keyword search. -/
def categorize_transaction_v1 (direction eventLabel : Option String) : String :=
  if direction == some "inflow" then "inflow"
  else if direction == some "outflow" then
    if hasFeeKeyword (lowerStr (pyStrCell eventLabel)) then "fees" else "outflow"
  else "other"

/-- `categorize_transaction` as written in src/datacleanup2.py (lines 55-68):
both cells are cast with `str(...)` and lower-cased before comparison. -/
def categorize_transaction_v2 (direction eventLabel : Option String) : String :=
  let d := lowerStr (pyStrCell direction)
  let e := lowerStr (pyStrCell eventLabel)
  if d == "inflow" then "inflow"
  else if d == "outflow" then
    if hasFeeKeyword e then "fees" else "outflow"
  else "other"

/-- The categorization algorithm exactly as the specification words it
(§4.2 / claim C2): case-insensitive on both fields, mapping
`(direction, event_label)` to one of the four tags.  Used as the spec-side
reference for the refinement statement of claim C2. -/
def claimCategorize (direction eventLabel : String) : String :=
  if lowerStr direction == "inflow" then "inflow"
  else if lowerStr direction == "outflow" then
    if hasFeeKeyword (lowerStr eventLabel) then "fees" else "outflow"
  else "other"

/-- The four transaction-type tags. -/
def tagList : List String := ["inflow", "outflow", "fees", "other"]

/-- ASCII whitespace, as stripped by Python's `str.strip()` on the inputs the
pipeline sees. -/
def isWs (c : Char) : Bool := c == ' ' || c == '\t' || c == '\n' || c == '\r'

/-- Python `str.strip()` on a character list. -/
def myTrim (l : List Char) : List Char :=
  ((l.dropWhile isWs).reverse.dropWhile isWs).reverse

/-- `series.astype(str).str.replace(r'[$,]', '', regex=True)`: literal removal
of every `$` and `,` character. -/
def stripCur (l : List Char) : List Char :=
  l.filter (fun c => !(c == '$' || c == ','))

/-- Value of a string of decimal digits. -/
def digitsToNat (l : List Char) : Nat :=
  l.foldl (fun a c => 10 * a + (c.toNat - 48)) 0

/-- Exponent part after the `e`/`E` marker: optional sign then digits. -/
def parseExpPart (l : List Char) : Option Int :=
  match l with
  | '+' :: r => if !r.isEmpty && r.all Char.isDigit then some (digitsToNat r) else none
  | '-' :: r => if !r.isEmpty && r.all Char.isDigit then some (-(digitsToNat r : Int)) else none
  | r => if !r.isEmpty && r.all Char.isDigit then some (digitsToNat r) else none

/-- Unsigned decimal magnitude: digits, optional fractional part, optional
scientific exponent; at least one digit required. -/
def parseMag (l : List Char) : Option ℚ :=
  let I := l.takeWhile Char.isDigit
  let rest := l.dropWhile Char.isDigit
  match rest with
  | [] => if I.isEmpty then none else some (digitsToNat I : ℚ)
  | '.' :: r2 =>
    let F := r2.takeWhile Char.isDigit
    let rest2 := r2.dropWhile Char.isDigit
    if I.isEmpty && F.isEmpty then none
    else
      let base : ℚ := (digitsToNat I : ℚ) + (digitsToNat F : ℚ) / (10 : ℚ) ^ F.length
      match rest2 with
      | [] => some base
      | 'e' :: r3 => (parseExpPart r3).map (fun k => base * (10 : ℚ) ^ k)
      | 'E' :: r3 => (parseExpPart r3).map (fun k => base * (10 : ℚ) ^ k)
      | _ => none
  | 'e' :: r3 =>
    if I.isEmpty then none
    else (parseExpPart r3).map (fun k => (digitsToNat I : ℚ) * (10 : ℚ) ^ k)
  | 'E' :: r3 =>
    if I.isEmpty then none
    else (parseExpPart r3).map (fun k => (digitsToNat I : ℚ) * (10 : ℚ) ^ k)
  | _ => none

/-- Model of `pd.to_numeric(s, errors='coerce')` on one cleaned string:
surrounding whitespace is ignored, then an optionally signed decimal number
(with optional fraction and scientific exponent) is parsed.  `none` stands
for a NaN result — either an unparseable string or a string such as `"nan"`
that pandas parses to NaN, since the caller treats the two identically
(`isna` → fallback).  Strings parsing to infinities are outside the modelled
fragment. -/
def parseNum (l : List Char) : Option ℚ :=
  match myTrim l with
  | '+' :: r => parseMag r
  | '-' :: r => (parseMag r).map (fun q => -q)
  | r => parseMag r

/-- The cleaned character list the normalizer derives from one cell:
`str(cell)` then removal of `$` and `,`. -/
def cleanCell (c : Option String) : List Char :=
  stripCur (pyStrCell c).data

/-- The warning indices of `safe_to_numeric` (src/dataclean_v2.0.py lines
33-37): positions whose coerced value is NaN, excluding positions whose
cleaned string is empty after `strip()`. -/
def warnIdx (cleaned : List (List Char)) : List Nat :=
  (List.range cleaned.length).filter
    (fun i => (parseNum (cleaned.getD i [])).isNone && !(myTrim (cleaned.getD i [])).isEmpty)

/-- `safe_to_numeric` of src/dataclean_v2.0.py (lines 24-45): returns the
column with NaN filled by `0` together with the warned row indices. -/
def safe_to_numeric (cells : List (Option String)) : List ℚ × List Nat :=
  let cleaned := cells.map cleanCell
  (cleaned.map (fun l => (parseNum l).getD 0), warnIdx cleaned)

/-- The inline numeric conversion of src/dataclean.py `load_data` (lines
40-46): `pd.to_numeric(..., errors='coerce')` with no `fillna` and no
warning side channel — parse failures stay NaN (`none`). -/
def toNumericCoerce (cells : List (Option String)) : List (Option ℚ) :=
  cells.map (fun c => parseNum (cleanCell c))

/-- One row as the net-flow pivot builders see it: partition key
(`Original Currency Symbol`), derived `Transaction Type`, and
`Balance Impact (T)`. -/
structure PRow where
  sym : String
  tt : String
  impact : ℚ

/-- Cell of the `pivot_table(values='Balance Impact (T)', index=..., columns=
'Transaction Type', aggfunc='sum', fill_value=0)`: sum of the impacts of the
token's rows with the given transaction type. -/
def sumBy (rows : List PRow) (s tt : String) : ℚ :=
  ((rows.filter (fun r => r.sym == s && r.tt == tt)).map (fun r => r.impact)).sum

/-- Whether the pivot table has a column for the given transaction type:
true iff some row (of any token) carries that type. -/
def hasCol (rows : List PRow) (tt : String) : Bool :=
  rows.any (fun r => r.tt == tt)

/-- A pivot column read after datacleanup2.py lines 176-178 patched the
missing categories in: the summed cell when the column exists, `0.0`
otherwise. -/
def colVal (rows : List PRow) (s tt : String) : ℚ :=
  if hasCol rows tt then sumBy rows s tt else 0

/-- `net_flow` of src/datacleanup2.py (lines 173-180): the four category
columns (each defaulted to `0.0` when absent) summed per token. -/
def netFlow_v2 (rows : List PRow) (s : String) : ℚ :=
  colVal rows s "inflow" + colVal rows s "outflow" + colVal rows s "fees" +
    colVal rows s "other"

/-- `net_flow` of src/dataclean.py (lines 188-197, identical in
src/dataclean_v2.0.py lines 322-330):
`pivot_table['inflow'] + pivot_table['outflow'] + pivot_table.get('fees', 0)`.
The `inflow` and `outflow` columns must exist (otherwise the lookup raises a
KeyError, modelled as `none`), `fees` contributes only when its column
exists, and the `other` column is never included. -/
def netFlow_v1 (rows : List PRow) (s : String) : Option ℚ :=
  if hasCol rows "inflow" && hasCol rows "outflow" then
    some (sumBy rows s "inflow" + sumBy rows s "outflow" +
      (if hasCol rows "fees" then sumBy rows s "fees" else 0))
  else none

/-- `df['Transaction Hash'].astype(str).str.strip().fillna('')`
(src/dataclean_v2.0.py lines 82-83): the cell is cast to a string first — a
missing cell becomes the literal string `"nan"` — then whitespace-trimmed.
After `astype(str)` no entry is NaN any more, so the trailing `fillna('')`
never applies and is not represented. -/
def cleanHash (c : Option String) : String :=
  String.mk (myTrim (pyStrCell c).data)

/-- Occurrence count of one hash value in the hash column
(`df['Transaction Hash'].value_counts()[h]`). -/
def countH : List String → String → Nat
  | [], _ => 0
  | x :: xs, h => (if x == h then 1 else 0) + countH xs h

/-- The distinct hash values in first-occurrence order. -/
def firstOccurAux : List String → List String → List String
  | _, [] => []
  | seen, h :: t =>
    if seen.contains h then firstOccurAux seen t
    else h :: firstOccurAux (h :: seen) t

/-- The distinct hash values of the column, in the order they first appear. -/
def firstOccurrences (hs : List String) : List String :=
  firstOccurAux [] hs

/-- Stable insertion into a list ordered by the boolean relation `le`. -/
def insertOrd {α : Type} (le : α → α → Bool) (x : α) : List α → List α
  | [] => [x]
  | y :: ys => if le x y then x :: y :: ys else y :: insertOrd le x ys

/-- Stable insertion sort by the boolean relation `le`; the executable
stand-in for the library sorts of the source (`Series.sort_values` inside
`value_counts`, `DataFrame.sort_values`). -/
def sortOrd {α : Type} (le : α → α → Bool) : List α → List α
  | [] => []
  | x :: xs => insertOrd le x (sortOrd le xs)

/-- `value_counts()` index order: the distinct hash values sorted by
descending occurrence count (pandas sorts the counts descending; ties keep
first-occurrence order in this model). -/
def valueCountsOrder (hs : List String) : List String :=
  sortOrd (fun a b => decide (countH hs b ≤ countH hs a)) (firstOccurrences hs)

/-- `hash_counts[hash_counts > 1].index` (src/dataclean_v2.0.py lines
175-178): the hashes occurring more than once, in `value_counts` order. -/
def groupHashes (hs : List String) : List String :=
  (valueCountsOrder hs).filter (fun h => decide (1 < countH hs h))

/-- Position of a hash in a list of distinct hashes. -/
def idx : List String → String → Option Nat
  | [], _ => none
  | x :: xs, h => if x == h then some 0 else (idx xs h).map (· + 1)

/-- `group_id_map = {hash_val: i + 1 for i, hash_val in
enumerate(group_hashes)}` followed by `df['Transaction Hash'].map(...)`
(src/dataclean_v2.0.py lines 182-188): a hash's group id is its position in
`group_hashes` plus one; hashes outside `group_hashes` get none (NaN, later
rendered as the empty string). -/
def groupIdOf (hs : List String) (h : String) : Option Nat :=
  (idx (groupHashes hs) h).map (· + 1)

/-- The `Group Comment` column (src/dataclean_v2.0.py lines 185-191): rows
whose mapped group id is non-null are marked group transactions. -/
def groupComment (hs : List String) (h : String) : String :=
  if (groupIdOf hs h).isSome then "Group Transaction" else "NOT a group transaction"

/-- One ledger row as the ordering and running-balance stages see it: parsed
`Timestamp` (`none` = NaT, i.e. unparseable), `Original Currency Symbol`,
and `Balance Impact (T)`. -/
structure LRow where
  ts : Option Int
  sym : String
  impact : ℚ
deriving DecidableEq

/-- Timestamp comparison under `sort_values(by='Timestamp', ascending=True)`:
parsed values ascending, NaT placed after every parsed value
(pandas `nargsort` appends the NaN positions last). -/
def tsLe : Option Int → Option Int → Bool
  | some x, some y => decide (x ≤ y)
  | some _, none => true
  | none, some _ => false
  | none, none => true

/-- `df.sort_values(by='Timestamp', ascending=True)` modelled with the
stable insertion sort `sortOrd`.  The source's default sort kind is
quicksort, whose order among equal timestamps is not guaranteed; no
claim theorem below depends on this model's tie order (see claim C8). -/
def sortByTs (rows : List LRow) : List LRow :=
  sortOrd (fun a b => tsLe a.ts b.ts) rows

/-- The ordered record set of src/dataclean_v2.0.py `load_data` (lines
100-108): rows with unparseable timestamps dropped (`dropna`), then sorted
ascending. -/
def loadOrder_v20 (raw : List LRow) : List LRow :=
  sortByTs (raw.filter (fun r => r.ts.isSome))

/-- The ordered record set of src/datacleanup2.py (line 108): sorted
ascending with NaT rows kept (there is no `dropna`), placed last. -/
def loadOrder_dc2 (raw : List LRow) : List LRow :=
  sortByTs raw

/-- The input of datacleanup2.py's monthly-volume report (line 244), which
drops NaT rows for that report only. -/
def monthlyRows_dc2 (raw : List LRow) : List LRow :=
  (loadOrder_dc2 raw).filter (fun r => r.ts.isSome)

/-- Lookup with default 0 in the per-token running-total accumulator. -/
def lookupD : List (String × ℚ) → String → ℚ
  | [], _ => 0
  | p :: m, s => if p.1 == s then p.2 else lookupD m s

/-- `df.groupby('Original Currency Symbol')['Balance Impact (T)'].cumsum()`
(src/dataclean_v2.0.py line 155, src/datacleanup2.py line 109): scan the
rows in record order keeping one running total per token; each row's output
is its token's previous total plus its own impact. -/
def cumsumAux : List (String × ℚ) → List LRow → List ℚ
  | _, [] => []
  | m, r :: rs =>
    (lookupD m r.sym + r.impact) ::
      cumsumAux ((r.sym, lookupD m r.sym + r.impact) :: m) rs

/-- The `Running Balance (T)` column. -/
def cumsumBy (rows : List LRow) : List ℚ :=
  cumsumAux [] rows

/-- The `Running Balance (T)` values of one token's rows, in record order. -/
def partBal (s : String) (rows : List LRow) : List ℚ :=
  ((rows.zip (cumsumBy rows)).filter (fun p => p.1.sym == s)).map (fun p => p.2)

/-- The `Balance Impact (T)` values of one token's rows, in record order. -/
def partImp (s : String) (rows : List LRow) : List ℚ :=
  (rows.filter (fun r => r.sym == s)).map (fun r => r.impact)

/-- Prefix sums of a list starting from the accumulator `a`. -/
def prefixFrom (a : ℚ) : List ℚ → List ℚ
  | [] => []
  | x :: xs => (a + x) :: prefixFrom (a + x) xs

lemma insertOrd_perm {α : Type} (le : α → α → Bool) (x : α) (l : List α) :
    (insertOrd le x l).Perm (x :: l) := by
  induction l with
  | nil => exact List.Perm.refl _
  | cons y ys ih =>
    rw [insertOrd]
    split
    · exact List.Perm.refl _
    · exact (ih.cons y).trans (List.Perm.swap x y ys)

lemma sortOrd_perm {α : Type} (le : α → α → Bool) (l : List α) :
    (sortOrd le l).Perm l := by
  induction l with
  | nil => exact List.Perm.refl _
  | cons x xs ih => exact (insertOrd_perm le x (sortOrd le xs)).trans (ih.cons x)

lemma mem_sortOrd {α : Type} (le : α → α → Bool) (l : List α) (a : α) :
    a ∈ sortOrd le l ↔ a ∈ l :=
  (sortOrd_perm le l).mem_iff

lemma length_sortOrd {α : Type} (le : α → α → Bool) (l : List α) :
    (sortOrd le l).length = l.length :=
  (sortOrd_perm le l).length_eq

lemma pairwise_insertOrd {α : Type} (le : α → α → Bool)
    (htot : ∀ a b, le a b = false → le b a = true)
    (htrans : ∀ a b c, le a b = true → le b c = true → le a c = true)
    (x : α) (l : List α) (hl : l.Pairwise (fun a b => le a b = true)) :
    (insertOrd le x l).Pairwise (fun a b => le a b = true) := by
  induction l with
  | nil => simp [insertOrd]
  | cons y ys ih =>
    rcases List.pairwise_cons.mp hl with ⟨hy, hys⟩
    rw [insertOrd]
    split
    · rename_i hxy
      refine List.pairwise_cons.mpr ⟨?_, hl⟩
      intro z hz
      rcases List.mem_cons.mp hz with rfl | hz'
      · exact hxy
      · exact htrans x y z hxy (hy z hz')
    · rename_i hxy
      have hxy' : le x y = false := by
        revert hxy
        cases le x y <;> simp
      refine List.pairwise_cons.mpr ⟨?_, ih hys⟩
      intro z hz
      rcases List.mem_cons.mp ((insertOrd_perm le x ys).mem_iff.mp hz) with rfl | hz'
      · exact htot _ y hxy'
      · exact hy z hz'

lemma pairwise_sortOrd {α : Type} (le : α → α → Bool)
    (htot : ∀ a b, le a b = false → le b a = true)
    (htrans : ∀ a b c, le a b = true → le b c = true → le a c = true)
    (l : List α) : (sortOrd le l).Pairwise (fun a b => le a b = true) := by
  induction l with
  | nil => simp [sortOrd]
  | cons x xs ih => exact pairwise_insertOrd le htot htrans x (sortOrd le xs) ih

lemma mem_firstOccurAux (h : String) :
    ∀ (l seen : List String), h ∈ firstOccurAux seen l ↔ (h ∈ l ∧ h ∉ seen) := by
  intro l
  induction l with
  | nil => simp [firstOccurAux]
  | cons x t ih =>
    intro seen
    rw [firstOccurAux]
    split
    · rename_i hc
      have hxseen : x ∈ seen := by
        simpa using hc
      rw [ih seen]
      constructor
      · exact fun ⟨h1, h2⟩ => ⟨List.mem_cons_of_mem x h1, h2⟩
      · rintro ⟨h1, h2⟩
        rcases List.mem_cons.mp h1 with rfl | h1'
        · exact absurd hxseen h2
        · exact ⟨h1', h2⟩
    · rename_i hc
      have hxseen : x ∉ seen := by
        simpa using hc
      rw [List.mem_cons, ih (x :: seen)]
      constructor
      · rintro (rfl | ⟨h1, h2⟩)
        · exact ⟨List.mem_cons_self _ t, hxseen⟩
        · exact ⟨List.mem_cons_of_mem x h1, fun hs => h2 (List.mem_cons_of_mem x hs)⟩
      · rintro ⟨h1, h2⟩
        by_cases hx : h = x
        · exact Or.inl hx
        · rcases List.mem_cons.mp h1 with rfl | h1'
          · exact Or.inl rfl
          · refine Or.inr ⟨h1', fun hs => ?_⟩
            rcases List.mem_cons.mp hs with rfl | hs'
            · exact hx rfl
            · exact h2 hs'

lemma mem_firstOccurrences (hs : List String) (h : String) :
    h ∈ firstOccurrences hs ↔ h ∈ hs := by
  rw [firstOccurrences, mem_firstOccurAux]
  simp

lemma countH_append (a b : List String) (h : String) :
    countH (a ++ b) h = countH a h + countH b h := by
  induction a with
  | nil => simp [countH]
  | cons x xs ih =>
    rw [List.cons_append, countH, countH, ih]
    omega

lemma mem_of_countH_pos (hs : List String) (h : String) (hc : 0 < countH hs h) :
    h ∈ hs := by
  induction hs with
  | nil => simp [countH] at hc
  | cons x xs ih =>
    rw [countH] at hc
    by_cases hx : (x == h) = true
    · exact List.mem_cons.mpr (Or.inl (eq_of_beq hx).symm)
    · rw [if_neg hx] at hc
      exact List.mem_cons_of_mem x (ih (by omega))

lemma idx_isSome_iff (l : List String) (h : String) :
    (∃ i, idx l h = some i) ↔ h ∈ l := by
  induction l with
  | nil => simp [idx]
  | cons x xs ih =>
    rw [idx]
    by_cases hx : (x == h) = true
    · simp [hx, eq_of_beq hx]
    · rw [if_neg hx]
      have hne : h ≠ x := fun he => hx (by rw [he]; exact beq_self_eq_true x)
      simp only [List.mem_cons]
      constructor
      · rintro ⟨i, hi⟩
        rcases Option.map_eq_some'.mp hi with ⟨j, hj, _⟩
        exact Or.inr (ih.mp ⟨j, hj⟩)
      · rintro (rfl | hmem)
        · exact absurd rfl hne
        · rcases ih.mpr hmem with ⟨j, hj⟩
          exact ⟨j + 1, by rw [hj]; rfl⟩

lemma idx_some_get (l : List String) (h : String) (i : Nat) (hi : idx l h = some i) :
    ∃ hlt : i < l.length, l.get ⟨i, hlt⟩ = h := by
  induction l generalizing i with
  | nil => simp [idx] at hi
  | cons x xs ih =>
    rw [idx] at hi
    by_cases hx : (x == h) = true
    · rw [if_pos hx] at hi
      cases hi
      exact ⟨by simp, eq_of_beq hx⟩
    · rw [if_neg hx] at hi
      rcases Option.map_eq_some'.mp hi with ⟨j, hj, hji⟩
      rcases ih j hj with ⟨hlt, hget⟩
      subst hji
      exact ⟨by simp; omega, by simpa using hget⟩

lemma lookupD_cons (x : String × ℚ) (m : List (String × ℚ)) (s : String) :
    lookupD (x :: m) s = if x.1 == s then x.2 else lookupD m s :=
  rfl

lemma cumsumAux_length : ∀ (rows : List LRow) (m : List (String × ℚ)),
    (cumsumAux m rows).length = rows.length := by
  intro rows
  induction rows with
  | nil => intro m; rfl
  | cons r rs ih =>
    intro m
    rw [cumsumAux, List.length_cons, List.length_cons, ih]

lemma cumsumAux_partition (s : String) : ∀ (rows : List LRow) (m : List (String × ℚ)),
    ((rows.zip (cumsumAux m rows)).filter (fun p => p.1.sym == s)).map (fun p => p.2) =
      prefixFrom (lookupD m s) ((rows.filter (fun r => r.sym == s)).map (fun r => r.impact)) := by
  intro rows
  induction rows with
  | nil => intro m; rfl
  | cons r rs ih =>
    intro m
    rw [cumsumAux, List.zip_cons_cons, List.filter_cons, List.filter_cons]
    by_cases hs : (r.sym == s) = true
    · have hse : r.sym = s := eq_of_beq hs
      simp only [hs, if_pos]
      rw [List.map_cons, List.map_cons, prefixFrom, ih, lookupD_cons]
      simp [hse]
    · simp only [hs, Bool.false_eq_true, if_neg, not_false_iff]
      rw [ih, lookupD_cons]
      simp only [hs, Bool.false_eq_true, if_neg, not_false_iff]

lemma prefixFrom_length (a : ℚ) : ∀ xs : List ℚ, (prefixFrom a xs).length = xs.length := by
  intro xs
  induction xs generalizing a with
  | nil => rfl
  | cons x xs ih => rw [prefixFrom, List.length_cons, List.length_cons, ih]

lemma prefixFrom_getD : ∀ (xs : List ℚ) (a : ℚ) (r : Nat), r < xs.length →
    (prefixFrom a xs).getD r 0 = a + (xs.take (r + 1)).sum := by
  intro xs
  induction xs with
  | nil =>
    intro a r hr
    simp at hr
  | cons x xs ih =>
    intro a r hr
    cases r with
    | zero => simp [prefixFrom]
    | succ n =>
      rw [prefixFrom, List.getD_cons_succ, ih (a + x) n (by simpa using hr),
        List.take_succ_cons, List.sum_cons]
      ring

lemma partBal_eq (s : String) (rows : List LRow) :
    partBal s rows = prefixFrom 0 (partImp s rows) := by
  have h0 : lookupD [] s = 0 := rfl
  rw [partBal, partImp, cumsumBy, cumsumAux_partition s rows [], h0]

lemma tsLe_total : ∀ a b : Option Int, tsLe a b = false → tsLe b a = true := by
  intro a b
  cases a <;> cases b <;> simp [tsLe] <;> try omega

lemma tsLe_trans : ∀ a b c : Option Int,
    tsLe a b = true → tsLe b c = true → tsLe a c = true := by
  intro a b c
  cases a <;> cases b <;> cases c <;> simp [tsLe] <;> try omega

lemma pairwise_sortByTs (l : List LRow) :
    (sortByTs l).Pairwise (fun a b => tsLe a.ts b.ts = true) :=
  pairwise_sortOrd _ (fun a b h => tsLe_total a.ts b.ts h)
    (fun a b c h1 h2 => tsLe_trans a.ts b.ts c.ts h1 h2) l

lemma mem_groupHashes_iff (hs : List String) (h : String) :
    h ∈ groupHashes hs ↔ 1 < countH hs h := by
  rw [groupHashes, List.mem_filter]
  simp only [decide_eq_true_eq]
  constructor
  · exact fun hx => hx.2
  · intro hc
    refine ⟨?_, hc⟩
    rw [valueCountsOrder, mem_sortOrd, mem_firstOccurrences]
    exact mem_of_countH_pos hs h (by omega)

lemma groupIdOf_isSome_iff (hs : List String) (h : String) :
    (∃ k, groupIdOf hs h = some k) ↔ 1 < countH hs h := by
  rw [← mem_groupHashes_iff, groupIdOf]
  constructor
  · rintro ⟨k, hk⟩
    rcases Option.map_eq_some'.mp hk with ⟨j, hj, _⟩
    exact (idx_isSome_iff _ h).mp ⟨j, hj⟩
  · intro hmem
    rcases (idx_isSome_iff _ h).mpr hmem with ⟨j, hj⟩
    exact ⟨j + 1, by rw [hj]; rfl⟩

lemma groupIdOf_ge_one (hs : List String) (h : String) (k : Nat)
    (hk : groupIdOf hs h = some k) : 1 ≤ k := by
  rcases Option.map_eq_some'.mp hk with ⟨j, _, hji⟩
  omega

lemma pairwise_groupHashes (hs : List String) :
    (groupHashes hs).Pairwise (fun a b => countH hs b ≤ countH hs a) := by
  have htot : ∀ a b : String, (decide (countH hs b ≤ countH hs a)) = false →
      (decide (countH hs a ≤ countH hs b)) = true := by
    intro a b hab
    simp only [decide_eq_false_iff_not, not_le] at hab
    simp only [decide_eq_true_eq]
    omega
  have htrans : ∀ a b c : String, (decide (countH hs b ≤ countH hs a)) = true →
      (decide (countH hs c ≤ countH hs b)) = true →
      (decide (countH hs c ≤ countH hs a)) = true := by
    intro a b c hab hbc
    simp only [decide_eq_true_eq] at hab hbc ⊢
    omega
  have hp := pairwise_sortOrd _ htot htrans (firstOccurrences hs)
  have hp2 : (valueCountsOrder hs).Pairwise (fun a b => countH hs b ≤ countH hs a) := by
    refine hp.imp ?_
    intro a b hab
    simpa using hab
  exact hp2.filter _

lemma groupIdOf_lt_of_count_lt (hs : List String) (h1 h2 : String) (k1 k2 : Nat)
    (h1k : groupIdOf hs h1 = some k1) (h2k : groupIdOf hs h2 = some k2)
    (hc : countH hs h2 < countH hs h1) : k1 < k2 := by
  rcases Option.map_eq_some'.mp h1k with ⟨i, hi, hik⟩
  rcases Option.map_eq_some'.mp h2k with ⟨j, hj, hjk⟩
  rcases idx_some_get _ _ _ hi with ⟨hilt, higet⟩
  rcases idx_some_get _ _ _ hj with ⟨hjlt, hjget⟩
  have hpw := (List.pairwise_iff_get).mp (pairwise_groupHashes hs)
  rcases Nat.lt_trichotomy i j with hij | hij | hij
  · omega
  · subst hij
    have he : h1 = h2 := by rw [← higet, ← hjget]
    rw [he] at hc
    exact absurd hc (lt_irrefl _)
  · have := hpw ⟨j, hjlt⟩ ⟨i, hilt⟩ (by simpa using hij)
    rw [higet, hjget] at this
    omega

lemma sumBy_eq_zero_of_not_hasCol (rows : List PRow) (s tt : String)
    (h : hasCol rows tt = false) : sumBy rows s tt = 0 := by
  induction rows with
  | nil => simp [sumBy]
  | cons r rest ih =>
    rw [hasCol, List.any_cons, Bool.or_eq_false_iff] at h
    rw [sumBy, List.filter_cons]
    simp only [h.1, Bool.and_false]
    simpa [sumBy] using ih h.2

lemma map_getD_of_lt {α β : Type} (l : List α) (f : α → β) (dα : α) (dβ : β) (i : Nat)
    (h : i < l.length) : (l.map f).getD i dβ = f (l.getD i dα) := by
  rw [List.getD_eq_getElem?_getD, List.getD_eq_getElem?_getD, List.getElem?_map,
    List.getElem?_eq_getElem h]
  simp

lemma categorize_v1_mem_tagList (d e : Option String) :
    categorize_transaction_v1 d e ∈ tagList := by
  unfold categorize_transaction_v1 tagList
  split
  · simp
  · split
    · split <;> simp
    · simp

lemma categorize_v2_mem_tagList (d e : Option String) :
    categorize_transaction_v2 d e ∈ tagList := by
  unfold categorize_transaction_v2 tagList
  dsimp only
  split
  · simp
  · split
    · split <;> simp
    · simp

/-- Claim C2, counterexample: the claim says the categorizer matches
`direction` case-insensitively, so `direction = "Inflow"` should yield
`"inflow"`; but `categorize_transaction` in src/dataclean.py (also present
verbatim in src/dataclean_v2.0.py) compares the raw cell with `==` and maps
the row `(direction = "Inflow", event_label = "Transfer")` to `"other"`. -/
theorem claim_C2_counterexample :
    lowerStr "Inflow" = "inflow" ∧
      categorize_transaction_v1 (some "Inflow") (some "Transfer") = "other" ∧
      "other" ≠ "inflow" := by
  refine ⟨by decide, by decide, by decide⟩

/-- Claim C2 (amended): the categorizer of src/datacleanup2.py implements the
claimed case-insensitive algorithm exactly; the categorizer of
src/dataclean.py / src/dataclean_v2.0.py matches `direction`
case-sensitively — the exact literal `"inflow"` yields `"inflow"`, the exact
literal `"outflow"` yields the claimed case-insensitive fee/outflow split on
`event_label`, and every other direction cell (hence any other casing, such
as `"Inflow"` or `"OUTFLOW"`) yields `"other"`; and every row receives
exactly one of the four tags in both versions. -/
theorem claim_C2_amended :
    (∀ d e : Option String,
        categorize_transaction_v2 d e = claimCategorize (pyStrCell d) (pyStrCell e)) ∧
      (∀ e : Option String, categorize_transaction_v1 (some "inflow") e = "inflow") ∧
      (∀ e : Option String,
        categorize_transaction_v1 (some "outflow") e = claimCategorize "outflow" (pyStrCell e)) ∧
      (∀ d e : Option String, d ≠ some "inflow" → d ≠ some "outflow" →
        categorize_transaction_v1 d e = "other") ∧
      (∀ e : Option String,
        categorize_transaction_v1 (some "Inflow") e = "other" ∧
          categorize_transaction_v1 (some "OUTFLOW") e = "other") ∧
      (∀ d e : Option String,
        categorize_transaction_v1 d e ∈ tagList ∧ categorize_transaction_v2 d e ∈ tagList) := by
  refine ⟨fun _ _ => rfl, fun e => rfl, fun e => rfl, ?_, fun e => ⟨rfl, rfl⟩, fun d e =>
    ⟨categorize_v1_mem_tagList d e, categorize_v2_mem_tagList d e⟩⟩
  intro d e h1 h2
  have h1' : (d == some "inflow") = false := beq_eq_false_iff_ne.mpr h1
  have h2' : (d == some "outflow") = false := beq_eq_false_iff_ne.mpr h2
  simp [categorize_transaction_v1, h1', h2']

/-- Witness for claim C2's amended theorem: its every-other-direction clause
at the concrete cell `"Inflow"`, a non-lowercase casing. -/
theorem claim_C2_witness :
    ((some "Inflow" : Option String) ≠ some "inflow") ∧
      ((some "Inflow" : Option String) ≠ some "outflow") ∧
      categorize_transaction_v1 (some "Inflow") (some "Transfer") = "other" :=
  ⟨by decide, by decide,
    claim_C2_amended.2.2.2.1 (some "Inflow") (some "Transfer") (by decide) (by decide)⟩

/-- Claim C4, counterexample: the claim says the reported net flow equals
`inflow_sum + outflow_sum + fees_sum + other_sum` (absent categories
contributing 0); but the `net_flow` of src/dataclean.py omits the `other`
category: with token A rows inflow 10, outflow -2 and other 5, it reports 8
while the four-way sum is 13. -/
theorem claim_C4_counterexample :
    netFlow_v1 [⟨"A", "inflow", 10⟩, ⟨"A", "outflow", -2⟩, ⟨"A", "other", 5⟩] "A" = some 8 ∧
      sumBy [⟨"A", "inflow", 10⟩, ⟨"A", "outflow", -2⟩, ⟨"A", "other", 5⟩] "A" "inflow" +
          sumBy [⟨"A", "inflow", 10⟩, ⟨"A", "outflow", -2⟩, ⟨"A", "other", 5⟩] "A" "outflow" +
          sumBy [⟨"A", "inflow", 10⟩, ⟨"A", "outflow", -2⟩, ⟨"A", "other", 5⟩] "A" "fees" +
          sumBy [⟨"A", "inflow", 10⟩, ⟨"A", "outflow", -2⟩, ⟨"A", "other", 5⟩] "A" "other" = 13 ∧
      (some (8 : ℚ) ≠ some (13 : ℚ)) := by
  refine ⟨?_, ?_, ?_⟩
  · simp [netFlow_v1, hasCol, sumBy]
    norm_num
  · simp [sumBy]
    norm_num
  · intro h
    exact absurd (Option.some.inj h) (by norm_num)

/-- Claim C4 (amended): in src/datacleanup2.py the net flow equals
`inflow_sum + outflow_sum + fees_sum + other_sum` with absent categories
contributing 0, exactly as claimed; in src/dataclean.py (and
src/dataclean_v2.0.py) the reported net flow instead equals that four-way
sum minus the `other` contribution (and is only defined when the inflow and
outflow columns exist). -/
theorem claim_C4_amended :
    (∀ (rows : List PRow) (s : String),
        netFlow_v2 rows s =
          sumBy rows s "inflow" + sumBy rows s "outflow" + sumBy rows s "fees" +
            sumBy rows s "other") ∧
      ∀ (rows : List PRow) (s : String) (q : ℚ), netFlow_v1 rows s = some q →
        q = (sumBy rows s "inflow" + sumBy rows s "outflow" + sumBy rows s "fees" +
              sumBy rows s "other") - sumBy rows s "other" := by
  have hcol : ∀ (rows : List PRow) (s tt : String), colVal rows s tt = sumBy rows s tt := by
    intro rows s tt
    rw [colVal]
    split
    · rfl
    · rename_i hf
      rw [sumBy_eq_zero_of_not_hasCol rows s tt (Bool.not_eq_true _ ▸ hf)]
  constructor
  · intro rows s
    rw [netFlow_v2, hcol, hcol, hcol, hcol]
  · intro rows s q h
    rw [netFlow_v1] at h
    split at h
    · rw [add_sub_cancel_right]
      have hq := Option.some.inj h
      rw [← hq]
      congr 1
      split
      · rfl
      · rename_i hf
        rw [sumBy_eq_zero_of_not_hasCol rows s "fees" (Bool.not_eq_true _ ▸ hf)]
    · exact absurd h (by simp)

/-- Witness for claim C4's amended theorem: its dataclean.py conclusion at a
concrete record set whose `other` row would change the four-way sum. -/
theorem claim_C4_witness :
    (8 : ℚ) =
      (sumBy [⟨"A", "inflow", 8⟩, ⟨"A", "outflow", 0⟩, ⟨"A", "other", 5⟩] "A" "inflow" +
          sumBy [⟨"A", "inflow", 8⟩, ⟨"A", "outflow", 0⟩, ⟨"A", "other", 5⟩] "A" "outflow" +
          sumBy [⟨"A", "inflow", 8⟩, ⟨"A", "outflow", 0⟩, ⟨"A", "other", 5⟩] "A" "fees" +
          sumBy [⟨"A", "inflow", 8⟩, ⟨"A", "outflow", 0⟩, ⟨"A", "other", 5⟩] "A" "other") -
        sumBy [⟨"A", "inflow", 8⟩, ⟨"A", "outflow", 0⟩, ⟨"A", "other", 5⟩] "A" "other" :=
  claim_C4_amended.2 [⟨"A", "inflow", 8⟩, ⟨"A", "outflow", 0⟩, ⟨"A", "other", 5⟩] "A" 8
    (by simp [netFlow_v1, hasCol, sumBy])

/-- Claim C1 (confirmed): for any record set in the order the running-balance
engine receives it, each token's `Running Balance (T)` at partition rank r
equals the sum of that token's `Balance Impact (T)` values at ranks 0..r;
and the ordered record sets produced by src/dataclean_v2.0.py and
src/datacleanup2.py are ascending in timestamp, so the partition order is
the partition's ascending-timestamp order. -/
theorem claim_C1_running_balance :
    (∀ (rows : List LRow) (s : String) (r : Nat), r < (partBal s rows).length →
        (partBal s rows).getD r 0 = ((partImp s rows).take (r + 1)).sum) ∧
      (∀ raw : List LRow,
        (loadOrder_v20 raw).Pairwise (fun a b => tsLe a.ts b.ts = true)) ∧
      ∀ raw : List LRow,
        (loadOrder_dc2 raw).Pairwise (fun a b => tsLe a.ts b.ts = true) := by
  refine ⟨?_, fun raw => pairwise_sortByTs _, fun raw => pairwise_sortByTs _⟩
  intro rows s r hr
  rw [partBal_eq] at hr ⊢
  rw [prefixFrom_length] at hr
  rw [prefixFrom_getD (partImp s rows) 0 r hr, zero_add]

/-- Witness for claim C1's theorem: the specification's own scenario — token
A rows with impacts 5, -3, -4 in timestamp order — at rank 2. -/
theorem claim_C1_witness :
    2 < (partBal "A" [⟨some 1, "A", 5⟩, ⟨some 2, "A", -3⟩, ⟨some 3, "A", -4⟩]).length ∧
      (partBal "A" [⟨some 1, "A", 5⟩, ⟨some 2, "A", -3⟩, ⟨some 3, "A", -4⟩]).getD 2 0 =
        ((partImp "A" [⟨some 1, "A", 5⟩, ⟨some 2, "A", -3⟩, ⟨some 3, "A", -4⟩]).take 3).sum :=
  ⟨by decide, claim_C1_running_balance.1
    [⟨some 1, "A", 5⟩, ⟨some 2, "A", -3⟩, ⟨some 3, "A", -4⟩] "A" 2 (by decide)⟩

/-- Claim C7, counterexample: the claim says rows with unparseable timestamps
are excluded from the ordered record set used for running-balance
computation; but src/datacleanup2.py never drops them — with one NaT row and
one parsed row, the ordered set still contains the NaT row (sorted last) and
the cumulative-sum column covers both rows. -/
theorem claim_C7_counterexample :
    (∃ r ∈ loadOrder_dc2 [⟨none, "A", 5⟩, ⟨some 1, "A", 1⟩], r.ts = none) ∧
      (loadOrder_dc2 [⟨none, "A", 5⟩, ⟨some 1, "A", 1⟩]).map (fun r => r.ts) =
        [some 1, none] ∧
      (cumsumBy (loadOrder_dc2 [⟨none, "A", 5⟩, ⟨some 1, "A", 1⟩])).length = 2 := by
  refine ⟨by decide, by decide, by decide⟩

/-- Claim C7 (amended): in src/dataclean.py and src/dataclean_v2.0.py rows
with unparseable timestamps are dropped before ordering, as claimed; in
src/datacleanup2.py they are instead retained with a null timestamp, sorted
after every parsed row, and included in the running-balance cumulative sum —
they are excluded only from the monthly time-bucketed aggregation.  In no
revision does an unparseable timestamp abort the pipeline (every stage is a
total function of the record set). -/
theorem claim_C7_amended :
    (∀ raw : List LRow, ∀ r ∈ loadOrder_v20 raw, r.ts.isSome = true) ∧
      (∀ raw : List LRow, (loadOrder_dc2 raw).length = raw.length ∧
        (cumsumBy (loadOrder_dc2 raw)).length = raw.length) ∧
      (∀ raw : List LRow, (loadOrder_dc2 raw).Pairwise
        (fun a b => a.ts = none → b.ts = none)) ∧
      ∀ raw : List LRow, ∀ r ∈ monthlyRows_dc2 raw, r.ts.isSome = true := by
  refine ⟨?_, ?_, ?_, ?_⟩
  · intro raw r hr
    have hmem := (mem_sortOrd _ _ r).mp hr
    exact (List.mem_filter.mp hmem).2
  · intro raw
    constructor
    · rw [loadOrder_dc2, sortByTs]
      exact length_sortOrd _ raw
    · rw [cumsumBy, cumsumAux_length, loadOrder_dc2, sortByTs]
      exact length_sortOrd _ raw
  · intro raw
    refine (pairwise_sortByTs raw).imp ?_
    intro a b hle ha
    cases hb : b.ts with
    | none => rfl
    | some y =>
      rw [ha, hb] at hle
      simp [tsLe] at hle
  · intro raw r hr
    exact (List.mem_filter.mp hr).2

/-- Witness for claim C7's amended theorem: its dataclean_v2.0.py conclusion
at a concrete record set with one NaT row, for the surviving parsed row. -/
theorem claim_C7_witness :
    (⟨some 1, "A", 1⟩ : LRow) ∈ loadOrder_v20 [⟨none, "A", 5⟩, ⟨some 1, "A", 1⟩] ∧
      (⟨some 1, "A", 1⟩ : LRow).ts.isSome = true :=
  ⟨by decide, claim_C7_amended.1 [⟨none, "A", 5⟩, ⟨some 1, "A", 1⟩]
    ⟨some 1, "A", 1⟩ (by decide)⟩

/-- Claim C5, counterexample: the claim says group ids are assigned in
first-encounter order; with the hash column `["B", "B", "A", "A", "A"]` the
first-encounter order of the group hashes is `["B", "A"]`, so `"B"` should
get id 1 — but `value_counts` orders by descending count (`A`:3, `B`:2), so
the code gives `"B"` id 2 and `"A"` id 1. -/
theorem claim_C5_counterexample :
    firstOccurrences ["B", "B", "A", "A", "A"] = ["B", "A"] ∧
      groupIdOf ["B", "B", "A", "A", "A"] "B" = some 2 ∧
      groupIdOf ["B", "B", "A", "A", "A"] "A" = some 1 := by
  refine ⟨by decide, by decide, by decide⟩

/-- Claim C5 (amended): each transaction hash occurring more than once — and
only such a hash — is assigned a group id, the ids are positive integers
starting at 1, and they are assigned in `value_counts` order (descending
occurrence count, a hash with strictly more occurrences getting a strictly
smaller id), not in first-encounter order; the assignment is a pure function
of the ordered hash column, so re-running it on the same input yields the
same ids. -/
theorem claim_C5_amended :
    (∀ (hs : List String) (h : String), (∃ k, groupIdOf hs h = some k) ↔ 1 < countH hs h) ∧
      (∀ (hs : List String) (h : String) (k : Nat), groupIdOf hs h = some k → 1 ≤ k) ∧
      ∀ (hs : List String) (h1 h2 : String) (k1 k2 : Nat),
        groupIdOf hs h1 = some k1 → groupIdOf hs h2 = some k2 →
          countH hs h2 < countH hs h1 → k1 < k2 :=
  ⟨groupIdOf_isSome_iff, groupIdOf_ge_one, groupIdOf_lt_of_count_lt⟩

/-- Witness for claim C5's amended theorem at the concrete hash column
`["B", "B", "A", "A", "A"]`. -/
theorem claim_C5_witness :
    (1 < countH ["B", "B", "A", "A", "A"] "A") ∧
      ∃ k, groupIdOf ["B", "B", "A", "A", "A"] "A" = some k :=
  ⟨by decide, (claim_C5_amended.1 ["B", "B", "A", "A", "A"] "A").mpr (by decide)⟩

/-- Claim C6: the claim (and spec §4.5) requires that rows whose transaction
hash is the empty-string sentinel are never grouped; the grouping stage of
src/dataclean_v2.0.py (lines 172-194) has no such exclusion, so two
whitespace-only hash cells — both stripped to `""` — are counted as a shared
key and both marked as one group.  This theorem evaluates the code's model
at that failing input. -/
theorem claim_C6_code_behavior :
    cleanHash (some "  ") = "" ∧
      groupIdOf [cleanHash (some "  "), cleanHash (some " ")] "" = some 1 ∧
      groupComment [cleanHash (some "  "), cleanHash (some " ")] "" = "Group Transaction" := by
  refine ⟨by decide, by decide, by decide⟩

/-- Claim C9 (confirmed): in src/dataclean_v2.0.py a missing
`Transaction Hash` cell becomes the literal string `"nan"` (the `astype(str)`
cast happens before the `fillna('')`, which therefore never applies), so
whenever two or more rows have missing hashes the key `"nan"` has count > 1
and those rows receive a common positive group id and the comment
`"Group Transaction"`. -/
theorem claim_C9_missing_hash_groups :
    cleanHash none = "nan" ∧
      ∀ pre mid post : List (Option String),
        1 < countH ((pre ++ none :: mid ++ none :: post).map cleanHash) "nan" ∧
          ∃ k, 1 ≤ k ∧
            groupIdOf ((pre ++ none :: mid ++ none :: post).map cleanHash) "nan" = some k ∧
              groupComment ((pre ++ none :: mid ++ none :: post).map cleanHash) "nan" =
                "Group Transaction" := by
  have hnan : cleanHash none = "nan" := rfl
  refine ⟨hnan, ?_⟩
  intro pre mid post
  have hcount : 1 < countH ((pre ++ none :: mid ++ none :: post).map cleanHash) "nan" := by
    simp only [List.map_append, List.map_cons, countH_append, countH, hnan,
      beq_self_eq_true, if_true]
    omega
  refine ⟨hcount, ?_⟩
  rcases (groupIdOf_isSome_iff _ "nan").mpr hcount with ⟨k, hk⟩
  refine ⟨k, groupIdOf_ge_one _ _ _ hk, hk, ?_⟩
  rw [groupComment, hk]
  simp

/-- Claim C3, counterexample: the claim says normalization maps a non-empty
unparseable input such as `"abc"` to `0.0` (with a warning) and never leaves
a null/NaN in the output column; but the inline conversion of
src/dataclean.py `load_data` (lines 40-46) uses `errors='coerce'` with no
`fillna` and no warning side channel, so `"abc"` is left as NaN (`none`),
not `0.0`. -/
theorem claim_C3_counterexample :
    toNumericCoerce [some "abc"] = [none] ∧ (none : Option ℚ) ≠ some 0 := by
  refine ⟨by decide, by decide⟩

/-- Claim C3 (amended): the claimed behaviour is that of `safe_to_numeric` in
src/dataclean_v2.0.py — the output column has one finite value per input
cell; each value is the parsed number, or `0` on a NaN result; a warning
names exactly the row indices whose cleaned input is NaN-valued yet
non-empty after stripping (so `"abc"` warns and `""` does not).  The inline
conversion of src/dataclean.py instead leaves NaN (`none`) at every parse
failure and produces no warnings; filling its NaNs with `0` recovers
exactly the `safe_to_numeric` column. -/
theorem claim_C3_amended :
    (∀ cells : List (Option String),
        (safe_to_numeric cells).1.length = cells.length ∧
          ∀ i, i < cells.length →
            ((safe_to_numeric cells).1.getD i 0 =
                (parseNum (cleanCell (cells.getD i none))).getD 0 ∧
              (i ∈ (safe_to_numeric cells).2 ↔
                parseNum (cleanCell (cells.getD i none)) = none ∧
                  (myTrim (cleanCell (cells.getD i none))).isEmpty = false))) ∧
      ∀ cells : List (Option String),
        (toNumericCoerce cells).map (fun o => o.getD 0) = (safe_to_numeric cells).1 := by
  constructor
  · intro cells
    constructor
    · simp [safe_to_numeric]
    · intro i hi
      constructor
      · show ((cells.map cleanCell).map (fun l => (parseNum l).getD 0)).getD i 0 = _
        rw [map_getD_of_lt (cells.map cleanCell) _ [] 0 i (by simpa using hi),
          map_getD_of_lt cells cleanCell none [] i hi]
      · show i ∈ warnIdx (cells.map cleanCell) ↔ _
        rw [warnIdx, List.mem_filter, List.mem_range]
        rw [map_getD_of_lt cells cleanCell none [] i hi]
        simp [hi, Option.isNone_iff_eq_none]
  · intro cells
    simp [toNumericCoerce, safe_to_numeric, List.map_map]

/-- Witness for claim C3's amended theorem: its per-index conclusion at the
concrete column `["$1,234.56", "abc", ""]` and index 1 (the `"abc"` cell). -/
theorem claim_C3_witness :
    1 < ([some "$1,234.56", some "abc", some ""] : List (Option String)).length ∧
      ((safe_to_numeric [some "$1,234.56", some "abc", some ""]).1.getD 1 0 =
          (parseNum (cleanCell (([some "$1,234.56", some "abc", some ""] :
            List (Option String)).getD 1 none))).getD 0 ∧
        (1 ∈ (safe_to_numeric [some "$1,234.56", some "abc", some ""]).2 ↔
          parseNum (cleanCell (([some "$1,234.56", some "abc", some ""] :
            List (Option String)).getD 1 none)) = none ∧
            (myTrim (cleanCell (([some "$1,234.56", some "abc", some ""] :
              List (Option String)).getD 1 none))).isEmpty = false)) :=
  ⟨by decide, (claim_C3_amended.1 [some "$1,234.56", some "abc", some ""]).2 1 (by decide)⟩

/-- Claim C10 (confirmed): the categorizer is total on missing data — for any
row, including rows whose `Direction` or `Event Label` cell is null/NaN, it
returns one of the four tags; and a row with direction `"outflow"` and a
missing `Event Label` is classified `"outflow"`, because `str(...)` turns the
missing label into the text `"nan"`, which contains no fee keyword. -/
theorem claim_C10_total_on_missing :
    (∀ d e : Option String,
        categorize_transaction_v1 d e ∈ tagList ∧ categorize_transaction_v2 d e ∈ tagList) ∧
      pyStrCell none = "nan" ∧
      hasFeeKeyword (lowerStr "nan") = false ∧
      categorize_transaction_v1 (some "outflow") none = "outflow" ∧
      categorize_transaction_v2 (some "outflow") none = "outflow" := by
  exact ⟨fun d e => ⟨categorize_v1_mem_tagList d e, categorize_v2_mem_tagList d e⟩,
    rfl, by decide, by decide, by decide⟩

end DataCleaner
